import Mathlib

/-!
Verification of the closure-tree engine (go-bumbu/closure-tree).

Shallow embedding of the current implementation in closuretree.go:
the node table and the relation table are lists of rows, the store-assigned
auto-increment id is an explicit counter, and every SQL statement of the Go
source is translated into an executable list computation.  Errors returned
by an operation mean the surrounding transaction was rolled back, so the
database value is unchanged (the Except result carries no new state).
-/

namespace ClosureTree

/-- Row of the node table: node_id (store assigned), tenant, and the
caller-owned payload columns (opaque to the engine, collapsed to one Nat). -/
structure NodeRow where
  nodeId : Nat
  tenant : String
  payload : Nat
deriving DecidableEq, Repr

/-- Row of the relation table (struct closureTree in the source):
AncestorID, DescendantID, Tenant, Depth.  Depth is an int in Go. -/
structure Rel where
  ancestorId : Nat
  descendantId : Nat
  tenant : String
  depth : Int
deriving DecidableEq, Repr

/-- The database state behind one Tree handle: the node table, the relation
table, and the auto-increment counter for node ids (ids are store assigned,
modelled as monotonically increasing from 1; id 0 is the virtual root). -/
structure DB where
  nodes : List NodeRow
  rels : List Rel
  nextId : Nat
deriving DecidableEq, Repr

def DB.empty : DB := ⟨[], [], 1⟩

/-- Error taxonomy of the engine (ErrItemIsNotTreeNode, ErrParentNotFound,
ErrNodeNotFound, ErrInvalidMove in the source). -/
inductive CtError where
  | itemIsNotTreeNode
  | parentNotFound
  | nodeNotFound
  | invalidMove
deriving DecidableEq, Repr

/-- DefaultTenant sentinel from the source. -/
def DefaultTenant : String := "DefaultTenant"

/-- defaultTenant from the source: an empty tenant string is replaced by the
sentinel, anything else passes through. -/
def defaultTenant (s : String) : String :=
  if s = "" then DefaultTenant else s

namespace Tree

/-- Tree.Add: checks the parent exists under the (normalized) tenant, inserts
the node row with a fresh id, its reflexive relation at depth 0, then either
the root marker (0, id, tenant, 1) for parentID = 0 (addRootRelQuery) or a
copy of every relation row whose descendant_id = parentID with the descendant
replaced by the new id and depth incremented (addRelsQuery; the SELECT of
that query has no tenant filter, matching the source). -/
def Add (db : DB) (payload : Nat) (parentID : Nat) (tenant : String) :
    Except CtError DB :=
  let tenant := defaultTenant tenant
  if parentID != 0 &&
      !(db.nodes.any fun n => n.nodeId == parentID && n.tenant == tenant) then
    .error .parentNotFound
  else
    let id := db.nextId
    let newRels : List Rel :=
      if parentID == 0 then
        [⟨0, id, tenant, 1⟩]
      else
        (db.rels.filter fun r => r.descendantId == parentID).map
          fun r => ⟨r.ancestorId, id, tenant, r.depth + 1⟩
    .ok { nodes := db.nodes ++ [⟨id, tenant, payload⟩]
          rels := db.rels ++ ⟨id, id, tenant, 0⟩ :: newRels
          nextId := id + 1 }

/-- Tree.GetNode: single-row fetch by (node_id, tenant) after normalizing the
tenant; ErrNodeNotFound when absent. -/
def GetNode (db : DB) (nodeID : Nat) (tenant : String) :
    Except CtError NodeRow :=
  let tenant := defaultTenant tenant
  match db.nodes.find? (fun n => n.nodeId == nodeID && n.tenant == tenant) with
  | some n => .ok n
  | none => .error .nodeNotFound

/-- Tree.Update: overwrites the payload of node rows matching
(node_id, tenant) after normalizing the tenant; ErrNodeNotFound exactly when
zero rows are affected.  The relation table is not touched. -/
def Update (db : DB) (id : Nat) (payload : Nat) (tenant : String) :
    Except CtError DB :=
  let tenant := defaultTenant tenant
  if db.nodes.any (fun n => n.nodeId == id && n.tenant == tenant) then
    .ok { db with
           nodes := db.nodes.map fun n =>
             if n.nodeId == id && n.tenant == tenant then
               { n with payload := payload }
             else n }
  else
    .error .nodeNotFound

/-- Tree.IsChildOf: a relation (parentID, nodeID, tenant, depth 1) exists.
Called by Move with the already-normalized tenant. -/
def IsChildOf (db : DB) (nodeID parentID : Nat) (tenant : String) : Bool :=
  db.rels.any fun r =>
    r.ancestorId == parentID && r.descendantId == nodeID &&
    r.depth == 1 && r.tenant == tenant

/-- Tree.IsDescendant: a relation (nodeID, parentId, tenant) of any depth
exists (the reflexive row included). -/
def IsDescendant (db : DB) (nodeID parentId : Nat) (tenant : String) : Bool :=
  db.rels.any fun r =>
    r.ancestorId == nodeID && r.descendantId == parentId &&
    r.tenant == tenant

end Tree

/-- Rows inserted by Move step 1.  For newParentID = 0 this is
moveQueryInsertNewToRoot: one row (0, c.descendant_id, c.tenant, c.depth + 1)
per subtree row c (ancestor_id = nodeId, tenant match).  Otherwise
moveQueryInsertNew: the cross join of the new parent's ancestor rows p
(descendant_id = newParentID, tenant match) with the subtree rows c, giving
(p.ancestor_id, c.descendant_id, p.tenant, p.depth + c.depth + 1). -/
def moveInsertedRows (db : DB) (nodeId newParentID : Nat) (tenant : String) :
    List Rel :=
  if newParentID == 0 then
    (db.rels.filter fun c => c.ancestorId == nodeId && c.tenant == tenant).map
      fun c => ⟨0, c.descendantId, c.tenant, c.depth + 1⟩
  else
    (db.rels.filter fun p =>
        p.descendantId == newParentID && p.tenant == tenant).flatMap
      fun p =>
        (db.rels.filter fun c =>
            c.ancestorId == nodeId && c.tenant == tenant).map
          fun c => ⟨p.ancestorId, c.descendantId, p.tenant,
                    p.depth + c.depth + 1⟩

/-- Membership in the subtree CTE of the move delete queries: some relation
row has ancestor_id = nodeId, the given tenant, and descendant_id = d. -/
def inSubtree (rels : List Rel) (nodeId : Nat) (tenant : String) (d : Nat) :
    Bool :=
  rels.any fun r =>
    r.ancestorId == nodeId && r.tenant == tenant && r.descendantId == d

/-- The new_paths CTE of the move delete queries, evaluated on the
post-insert relation table: (ancestor, descendant, depth) triples from the
cross join of the new parent's ancestor rows with the subtree rows; for a
move to root (newParentID = 0) the single extra row (0, nodeId, 1) is
appended (the UNION ALL branch of moveQueryToRootDeleteOld). -/
def moveNewPaths (rels : List Rel) (nodeId newParentID : Nat)
    (tenant : String) : List (Nat × Nat × Int) :=
  let base :=
    (rels.filter fun p =>
        p.descendantId == newParentID && p.tenant == tenant).flatMap
      fun p =>
        (rels.filter fun c =>
            c.ancestorId == nodeId && c.tenant == tenant).map
          fun c => (p.ancestorId, c.descendantId, p.depth + c.depth + 1)
  if newParentID == 0 then base ++ [(0, nodeId, 1)] else base

/-- The delete condition of moveQueryDeleteOld / moveQueryToRootDeleteOld on
one relation row r of the post-insert table: r matches the old_paths CTE
(descendant in the subtree, given tenant, not a self link, ancestor outside
the subtree) and the LEFT JOIN with new_paths leaves it in the delete set
(no new path with the same ancestor and descendant, or one with a different
depth).  The IN clause compares whole (ancestor, descendant, tenant, depth)
tuples, and every predicate depends only on those tuple fields, so deleting
exactly the rows satisfying this condition is equivalent. -/
def moveShouldDelete (rels : List Rel) (nodeId newParentID : Nat)
    (tenant : String) (r : Rel) : Bool :=
  let np := moveNewPaths rels nodeId newParentID tenant
  (inSubtree rels nodeId tenant r.descendantId &&
     r.tenant == tenant &&
     r.ancestorId != r.descendantId &&
     !(inSubtree rels nodeId tenant r.ancestorId))
  &&
  (!(np.any fun n => n.1 == r.ancestorId && n.2.1 == r.descendantId) ||
     (np.any fun n => n.1 == r.ancestorId && n.2.1 == r.descendantId &&
        n.2.2 != r.depth))

namespace Tree

/-- Tree.Move: normalize the tenant; reject with ErrInvalidMove when the new
parent already is the node's parent (IsChildOf), or — for a non-zero new
parent — when the new parent is the node itself or one of its descendants
(IsDescendant); insert the new path rows; if that affected zero rows return
ErrNodeNotFound (the delete step is skipped); otherwise run the delete query
on the post-insert table. -/
def Move (db : DB) (nodeId newParentID : Nat) (tenant : String) :
    Except CtError DB :=
  let tenant := defaultTenant tenant
  if IsChildOf db nodeId newParentID tenant then
    .error .invalidMove
  else if newParentID != 0 && IsDescendant db nodeId newParentID tenant then
    .error .invalidMove
  else
    let inserted := moveInsertedRows db nodeId newParentID tenant
    if inserted.isEmpty then
      .error .nodeNotFound
    else
      let rels1 := db.rels ++ inserted
      .ok { db with
             rels := rels1.filter fun r =>
               !(moveShouldDelete rels1 nodeId newParentID tenant r) }

/-- Tree.DeleteRecurse.  The source does NOT normalize the tenant here.
deleteNodesRec removes the node rows whose id is a descendant of nodeId in
the relation table (no tenant filter on the relation side) and whose node
tenant equals the raw tenant argument; zero rows affected means
ErrNodeNotFound and the relation delete is skipped.  deleteRelationsQuery
then removes every relation row whose descendant_id is a descendant of
nodeId (no tenant filter at all), evaluated on the unchanged relation
table. -/
def DeleteRecurse (db : DB) (nodeId : Nat) (tenant : String) :
    Except CtError DB :=
  let toDelete : NodeRow → Bool := fun n =>
    n.tenant == tenant &&
      db.rels.any fun r =>
        r.ancestorId == nodeId && r.descendantId == n.nodeId
  if db.nodes.any toDelete then
    .ok { db with
           nodes := db.nodes.filter fun n => !(toDelete n)
           rels := db.rels.filter fun r =>
             !(db.rels.any fun s =>
                 s.ancestorId == nodeId && s.descendantId == r.descendantId) }
  else
    .error .nodeNotFound

end Tree

/-- absMaxDepth from the source: substituted for maxDepth when the caller
passes maxDepth less than or equal to 0. -/
def absMaxDepth : Int := 2147483647

/-- The join produced by descendantsIDQuery before ordering: for every
relation row with ancestor_id = parent and 0 < depth <= maxDepth, every node
row with matching node_id and the given tenant, paired with the relation's
depth (used as the ORDER BY key). -/
def descendantRows (db : DB) (parent : Nat) (maxDepth : Int)
    (tenant : String) : List (Nat × Int) :=
  (db.rels.filter fun r =>
      r.ancestorId == parent && decide (0 < r.depth) &&
      decide (r.depth ≤ maxDepth)).flatMap
    fun r =>
      (db.nodes.filter fun n =>
          n.nodeId == r.descendantId && n.tenant == tenant).map
        fun n => (n.nodeId, r.depth)

/-- Comparison used to model ORDER BY ct.depth. -/
def depthLe (a b : Nat × Int) : Prop := a.2 ≤ b.2

instance : DecidableRel depthLe := fun a b => inferInstanceAs (Decidable (a.2 ≤ b.2))

instance : IsTotal (Nat × Int) depthLe := ⟨fun a b => Int.le_total a.2 b.2⟩

instance : IsTrans (Nat × Int) depthLe := ⟨fun _ _ _ h h' => le_trans h h'⟩

namespace Tree

/-- Tree.DescendantIds: normalize the tenant, replace a non-positive
maxDepth by absMaxDepth, and return the node ids of descendantsIDQuery
ordered by ascending depth.  The only error path in the source is a storage
failure, which is outside the model, so the result is always ok. -/
def DescendantIds (db : DB) (parent : Nat) (maxDepth : Int)
    (tenant : String) : Except CtError (List Nat) :=
  let tenant := defaultTenant tenant
  let md := if maxDepth ≤ 0 then absMaxDepth else maxDepth
  .ok (((descendantRows db parent md tenant).insertionSort depthLe).map
        Prod.fst)

/-- Tree.Descendants.  The source does NOT normalize the tenant here.  The
rows of descendantsQuery (same join and filters as descendantsIDQuery, full
node rows) ordered by ascending depth; the parent_id output column resolved
by the additional self join is not part of the model. -/
def Descendants (db : DB) (parent : Nat) (maxDepth : Int) (tenant : String) :
    Except CtError (List NodeRow) :=
  let md := if maxDepth ≤ 0 then absMaxDepth else maxDepth
  let rows :=
    (db.rels.filter fun r =>
        r.ancestorId == parent && decide (0 < r.depth) &&
        decide (r.depth ≤ md)).flatMap
      fun r =>
        (db.nodes.filter fun n =>
            n.nodeId == r.descendantId && n.tenant == tenant).map
          fun n => (n, r.depth)
  .ok ((rows.insertionSort (fun a b => a.2 ≤ b.2)).map Prod.fst)

/-- Tree.RootIds (rootIdsQuery, present in the earlier evolution of
closuretree.go and selected by claim C9): the distinct node ids of the given
(normalized) tenant that appear as ancestor_id of some relation row and have
no relation row at depth = 1 pointing to them as descendant — from any
ancestor, the virtual root 0 included (the LEFT JOIN condition is only on
descendant_id and depth). -/
def RootIds (db : DB) (tenant : String) : Except CtError (List Nat) :=
  let tenant := defaultTenant tenant
  .ok (((db.nodes.filter fun n =>
          n.tenant == tenant &&
          (db.rels.any fun r1 => r1.ancestorId == n.nodeId) &&
          !(db.rels.any fun r2 =>
              r2.descendantId == n.nodeId && r2.depth == 1)).map
        (fun n => n.nodeId)).dedup)

end Tree

/-- One mutating engine call with its arguments. -/
inductive Op where
  | add (payload parentID : Nat) (tenant : String)
  | move (nodeId newParentID : Nat) (tenant : String)
  | del (nodeId : Nat) (tenant : String)
deriving DecidableEq, Repr

/-- Apply one operation; an error means the transaction rolled back, so the
state is unchanged. -/
def applyOp (db : DB) (op : Op) : DB :=
  match op with
  | .add p pid t =>
    match Tree.Add db p pid t with
    | .ok db' => db'
    | .error _ => db
  | .move n p t =>
    match Tree.Move db n p t with
    | .ok db' => db'
    | .error _ => db
  | .del n t =>
    match Tree.DeleteRecurse db n t with
    | .ok db' => db'
    | .error _ => db

/-- Run a sequence of mutating operations from the empty database. -/
def run (ops : List Op) : DB := ops.foldl applyOp DB.empty

/-- The list underneath an ok result (the engine's queries only fail on
storage errors, which are outside the model). -/
def okIds : Except CtError (List Nat) → List Nat
  | .ok l => l
  | .error _ => []

end ClosureTree

namespace ClosureTree

/-- Equality of Except results is decidable when both components are. -/
instance {ε α : Type} [DecidableEq ε] [DecidableEq α] :
    DecidableEq (Except ε α) := fun a b =>
  match a, b with
  | .error e, .error f =>
    if h : e = f then isTrue (by subst h; rfl)
    else isFalse (by intro hh; cases hh; exact h rfl)
  | .error _, .ok _ => isFalse (by intro hh; cases hh)
  | .ok _, .error _ => isFalse (by intro hh; cases hh)
  | .ok x, .ok y =>
    if h : x = y then isTrue (by subst h; rfl)
    else isFalse (by intro hh; cases hh; exact h rfl)

/-! Concrete states used by the counterexample and failing-input theorems. -/

/-- Root 1 with children 2 and 3, node 4 under 2, then node 4 is moved to the
sibling parent 3. -/
def seqSiblingMove : List Op :=
  [.add 0 0 "t", .add 0 1 "t", .add 0 1 "t", .add 0 2 "t", .move 4 3 "t"]

/-- Chain 1 -> 2 -> 3 under tenant t, before any move. -/
def dbChain : DB := run [.add 0 0 "t", .add 0 1 "t", .add 0 2 "t"]

/-- The state the engine commits for Move(2, 0, t) on dbChain. -/
def dbAfterRootMove : DB := applyOp dbChain (.move 2 0 "t")

/-- A single root node (id 1) under tenant t. -/
def dbOneRoot : DB := run [.add 0 0 "t"]

/-- A single root node added with the empty tenant string, which Add stores
under the DefaultTenant sentinel. -/
def dbEmptyTenantRoot : DB := run [.add 0 0 ""]

/-- C1.  For every reachable database state (produced by any sequence of
Add, Move, DeleteRecurse under any tenants), every existing node has exactly
one reflexive relation (id, id, tenant, 0), and for every real ancestor A of
a node N at k edges there is exactly one relation (A.id, N.id, tenant, k).
This theorem evaluates the code at the failing input seqSiblingMove: after
Add-ing root 1, children 2 and 3, node 4 under 2, and then Move(4, 3, t),
node 1 is a real ancestor of node 4 at two edges (4 is a child of 3, 3 a
child of 1), yet the relation table holds TWO identical rows (1, 4, t, 2):
the move re-inserts paths to common ancestors that keep the same depth, and
the relation table has no enforced uniqueness (the gorm tag of the closure
struct separates primaryKey and uniqueIndex with commas, which gorm does not
parse), so the claimed invariant is violated. -/
theorem c1_duplicate_relation_rows :
    ((run seqSiblingMove).rels.filter
        (fun r => decide (r = ⟨1, 4, "t", 2⟩))).length = 2
    ∧ Rel.mk 3 4 "t" 1 ∈ (run seqSiblingMove).rels
    ∧ Rel.mk 1 3 "t" 1 ∈ (run seqSiblingMove).rels
    ∧ NodeRow.mk 4 "t" 0 ∈ (run seqSiblingMove).nodes := by
  decide

/-- C2.  For every tree state and every successful Move(nodeId, newParentID,
tenant), the relative depth between nodeId and each of its descendants is
unchanged, every descendant's ancestor chain becomes the ancestors of
newParentID plus nodeId's subtree prefix, and no reflexive row is deleted.
This theorem evaluates the code at the failing input: on the chain
1 -> 2 -> 3, Move(2, 0, t) succeeds, node 3 keeps its subtree relation
(2, 3, t, 1), node 2 gains the root marker (0, 2, t, 1), but descendant 3
ends with NO ancestor relation from outside the moved subtree at all — in
particular the row (0, 3, t, 2) required by the claimed new ancestor chain
is absent, because the delete step's new_paths only re-admits the single row
(0, nodeId, 1) and so removes the very rows the insert step created for the
strict descendants. -/
theorem c2_move_to_root_loses_descendant_paths :
    (Tree.Move dbChain 2 0 "t").toOption = some dbAfterRootMove
    ∧ Rel.mk 2 3 "t" 1 ∈ dbAfterRootMove.rels
    ∧ Rel.mk 0 2 "t" 1 ∈ dbAfterRootMove.rels
    ∧ NodeRow.mk 3 "t" 0 ∈ dbAfterRootMove.nodes
    ∧ Rel.mk 0 3 "t" 2 ∉ dbAfterRootMove.rels
    ∧ (dbAfterRootMove.rels.filter
        (fun r => r.descendantId == 3 && r.ancestorId != 2 &&
          r.ancestorId != 3)).length = 0 := by
  decide

/-- C3 counterexample.  The claim states Move returns InvalidMove exactly
when the new parent is the current parent, equals the node, or is one of its
descendants.  With nodeId = newParentID = 0 the two ids are equal, so the
claim demands InvalidMove, but on a database holding one root node the code
passes both guards (no relation (0, 0, tenant, 1) exists and the
IsDescendant guard is skipped for newParentID = 0), the insert step copies
the root-marker rows, and the call does not return InvalidMove. -/
theorem c3_move_zero_to_zero_not_invalid :
    Tree.Move dbOneRoot 0 0 "t" ≠ .error .invalidMove
    ∧ (Tree.Move dbOneRoot 0 0 "t").toOption ≠ none := by
  decide

/-- C6 counterexample.  The claim states every engine operation normalizes
the empty tenant string before any read or write.  DeleteRecurse and
Descendants do not: on a root node stored under the DefaultTenant sentinel
(added with tenant \"\"), DeleteRecurse with tenant \"\" fails NodeNotFound
while DeleteRecurse with the sentinel succeeds, and Descendants with tenant
\"\" returns no rows while the sentinel returns the node. -/
theorem c6_deleterecurse_descendants_not_normalized :
    Tree.DeleteRecurse dbEmptyTenantRoot 1 "" = .error .nodeNotFound
    ∧ (Tree.DeleteRecurse dbEmptyTenantRoot 1 DefaultTenant).toOption ≠ none
    ∧ (Tree.Descendants dbEmptyTenantRoot 0 0 "").toOption = some []
    ∧ (Tree.Descendants dbEmptyTenantRoot 0 0 DefaultTenant).toOption =
        some [⟨1, DefaultTenant, 0⟩] := by
  decide

/-- C6 amended.  Add, Update, Move, GetNode, DescendantIds and RootIds
normalize the empty tenant string to the DefaultTenant sentinel before any
read or write, so for these operations tenant \"\" behaves identically to the
explicit sentinel; DeleteRecurse and Descendants pass the tenant argument
through unnormalized. -/
theorem c6_normalizing_operations (db : DB) (pay pid idv n p par : Nat)
    (md : Int) :
    Tree.Add db pay pid "" = Tree.Add db pay pid DefaultTenant
    ∧ Tree.Update db idv pay "" = Tree.Update db idv pay DefaultTenant
    ∧ Tree.Move db n p "" = Tree.Move db n p DefaultTenant
    ∧ Tree.GetNode db n "" = Tree.GetNode db n DefaultTenant
    ∧ Tree.DescendantIds db par md "" =
        Tree.DescendantIds db par md DefaultTenant
    ∧ Tree.RootIds db "" = Tree.RootIds db DefaultTenant :=
  ⟨rfl, rfl, rfl, rfl, rfl, rfl⟩

/-- C9 counterexample.  The claim states RootIds returns exactly the nodes
whose only depth-1 incoming relation is the one from the virtual root 0.
After adding a single root node, node 1 has exactly one depth-1 incoming
relation and it comes from ancestor 0, so the claim requires RootIds to
return it; the query instead disqualifies a node on ANY depth-1 incoming
relation (its left join does not exclude ancestor 0) and returns nothing. -/
theorem c9_rootids_excludes_marked_root :
    Tree.RootIds dbOneRoot "t" = .ok []
    ∧ Rel.mk 0 1 "t" 1 ∈ dbOneRoot.rels
    ∧ NodeRow.mk 1 "t" 0 ∈ dbOneRoot.nodes
    ∧ ((dbOneRoot.rels.filter (fun r => r.descendantId == 1 &&
          r.depth == 1)).map (fun r => r.ancestorId)) = [0] := by
  decide

end ClosureTree

namespace ClosureTree

/-- C9 amended. -/
theorem c9_rootids_membership (db : DB) (tenant : String) (x : Nat) :
    x ∈ okIds (Tree.RootIds db tenant) ↔
      ∃ n ∈ db.nodes, n.nodeId = x ∧ n.tenant = defaultTenant tenant ∧
        (∃ r1 ∈ db.rels, r1.ancestorId = x) ∧
        ¬ ∃ r2 ∈ db.rels, r2.descendantId = x ∧ r2.depth = 1 := by
  simp only [Tree.RootIds, okIds, List.mem_dedup, List.mem_map,
    List.mem_filter, Bool.and_eq_true, beq_iff_eq, Bool.not_eq_true',
    List.any_eq_true, List.any_eq_false, not_exists]
  constructor
  · rintro ⟨a, ⟨ha, ⟨ht, hr1⟩, hno⟩, rfl⟩
    refine ⟨a, ha, rfl, ht, hr1, ?_⟩
    rintro r2 ⟨hm, hd, h1⟩
    exact hno r2 hm ⟨hd, h1⟩
  · rintro ⟨n, hn, rfl, ht, hr1, hno⟩
    refine ⟨n, ⟨hn, ⟨ht, hr1⟩, ?_⟩, rfl⟩
    rintro r2 hm ⟨hd, h1⟩
    exact hno r2 ⟨hm, hd, h1⟩

lemma mem_descendantRows {db : DB} {parent : Nat} {md : Int} {tenant : String}
    {x : Nat} {d : Int} :
    (x, d) ∈ descendantRows db parent md tenant ↔
      ∃ r ∈ db.rels, r.ancestorId = parent ∧ 0 < r.depth ∧ r.depth ≤ md ∧
        r.depth = d ∧
        ∃ n ∈ db.nodes, n.nodeId = r.descendantId ∧ n.tenant = tenant ∧
          n.nodeId = x := by
  simp only [descendantRows, List.mem_flatMap, List.mem_filter, List.mem_map,
    Bool.and_eq_true, beq_iff_eq, decide_eq_true_eq, Prod.mk.injEq]
  constructor
  · rintro ⟨a, ⟨ha, ⟨hp, h0⟩, hm⟩, b, ⟨hb, hbd, hbt⟩, hbx, hd⟩
    exact ⟨a, ha, hp, h0, hm, hd, b, hb, hbd, hbt, hbx⟩
  · rintro ⟨r, hr, hp, h0, hm, hd, n, hn, hnd, hnt, hnx⟩
    exact ⟨r, ⟨hr, ⟨hp, h0⟩, hm⟩, n, ⟨hn, hnd, hnt⟩, hnx, hd⟩

lemma mem_okIds_descendantIds {db : DB} {parent : Nat} {maxDepth : Int}
    {tenant : String} {x : Nat} :
    x ∈ okIds (Tree.DescendantIds db parent maxDepth tenant) ↔
      ∃ d : Int, (x, d) ∈ descendantRows db parent
        (if maxDepth ≤ 0 then absMaxDepth else maxDepth)
        (defaultTenant tenant) := by
  simp only [Tree.DescendantIds, okIds, List.mem_map]
  constructor
  · rintro ⟨⟨y, d⟩, hm, rfl⟩
    exact ⟨d, (List.perm_insertionSort depthLe _).mem_iff.mp hm⟩
  · rintro ⟨d, hd⟩
    exact ⟨(x, d), (List.perm_insertionSort depthLe _).mem_iff.mpr hd, rfl⟩

/-- C10. -/
theorem c10_descendantids_empty_not_error (db : DB) (parent : Nat)
    (maxDepth : Int) (tenant : String)
    (h : ∀ r ∈ db.rels, r.ancestorId = parent → 0 < r.depth →
       ∀ n ∈ db.nodes, n.nodeId = r.descendantId →
         n.tenant ≠ defaultTenant tenant) :
    Tree.DescendantIds db parent maxDepth tenant = .ok []
    ∧ ((¬ ∃ n ∈ db.nodes, n.nodeId = parent ∧
          n.tenant = defaultTenant tenant) →
        Tree.GetNode db parent tenant = .error .nodeNotFound) := by
  constructor
  · have hrows : descendantRows db parent
        (if maxDepth ≤ 0 then absMaxDepth else maxDepth)
        (defaultTenant tenant) = [] := by
      rw [List.eq_nil_iff_forall_not_mem]
      rintro ⟨x, d⟩ hm
      rw [mem_descendantRows] at hm
      obtain ⟨r, hr, ha, hd0, _, _, n, hn, hnd, hnt, _⟩ := hm
      exact h r hr ha hd0 n hn hnd hnt
    simp only [Tree.DescendantIds, hrows, List.insertionSort, List.map_nil]
  · intro hno
    simp only [Tree.GetNode]
    rw [List.find?_eq_none.mpr]
    intro n hn
    simp only [Bool.and_eq_true, beq_iff_eq, not_and]
    intro h1 h2
    exact hno ⟨n, hn, h1, h2⟩

end ClosureTree

namespace ClosureTree

lemma filter_length_le_one {l : List NodeRow} {p : NodeRow → Bool}
    (hp : ∀ a b, p a = true → p b = true → a.nodeId = b.nodeId)
    (hl : l.Pairwise fun a b => a.nodeId ≠ b.nodeId) :
    (l.filter p).length ≤ 1 := by
  induction l with
  | nil => simp
  | cons a l ih =>
    rw [List.pairwise_cons] at hl
    by_cases hpa : p a = true
    · have hempty : l.filter p = [] := by
        rw [List.eq_nil_iff_forall_not_mem]
        intro b hb
        have hbm := List.mem_filter.mp hb
        exact hl.1 b hbm.1 (hp a b hpa hbm.2)
      simp [List.filter_cons, hpa, hempty]
    · simp only [List.filter_cons, hpa, if_neg, Bool.false_eq_true,
        not_false_eq_true, ite_false]
      exact ih hl.2

/-- C8.  Update(id, item, tenant) modifies only the payload of the single
node row matching (id, normalized tenant): the relation table and the id
counter are untouched, every node row keeps its id and tenant and only a
matching row (at most one when node ids are unique) gets the new payload,
and the call returns NodeNotFound exactly when no node row matches. -/
theorem c8_update_only_payload (db : DB) (idv pay : Nat) (tenant : String)
    (huniq : db.nodes.Pairwise fun a b => a.nodeId ≠ b.nodeId) :
    (Tree.Update db idv pay tenant = .error .nodeNotFound ↔
       ¬ ∃ n ∈ db.nodes, n.nodeId = idv ∧ n.tenant = defaultTenant tenant)
    ∧ (∀ db', Tree.Update db idv pay tenant = .ok db' →
        db'.rels = db.rels ∧ db'.nextId = db.nextId ∧
        db'.nodes = db.nodes.map (fun n =>
          if n.nodeId == idv && n.tenant == defaultTenant tenant then
            { n with payload := pay } else n) ∧
        (db.nodes.filter (fun n =>
           n.nodeId == idv && n.tenant == defaultTenant tenant)).length ≤ 1) := by
  have hany : (db.nodes.any fun n =>
      n.nodeId == idv && n.tenant == defaultTenant tenant) = true ↔
      ∃ n ∈ db.nodes, n.nodeId = idv ∧ n.tenant = defaultTenant tenant := by
    simp [List.any_eq_true]
  constructor
  · constructor
    · intro herr
      intro hex
      rw [← hany] at hex
      simp only [Tree.Update, hex, if_true] at herr
      exact Except.noConfusion herr
    · intro hnex
      have : (db.nodes.any fun n =>
          n.nodeId == idv && n.tenant == defaultTenant tenant) = false := by
        rw [Bool.eq_false_iff]
        intro hc
        exact hnex (hany.mp hc)
      simp only [Tree.Update, this, Bool.false_eq_true, if_false]
  · intro db' hok
    have hcond : (db.nodes.any fun n =>
        n.nodeId == idv && n.tenant == defaultTenant tenant) = true := by
      by_contra hc
      rw [Bool.not_eq_true] at hc
      simp only [Tree.Update, hc, Bool.false_eq_true, if_false] at hok
      exact Except.noConfusion hok
    simp only [Tree.Update, hcond, if_true, Except.ok.injEq] at hok
    subst hok
    refine ⟨rfl, rfl, rfl, ?_⟩
    refine filter_length_le_one ?_ huniq
    intro a b hpa hpb
    simp only [Bool.and_eq_true, beq_iff_eq] at hpa hpb
    rw [hpa.1, hpb.1]

end ClosureTree

namespace ClosureTree

/-- C7.  DescendantIds(parent, maxDepth, tenant) returns exactly the ids of
node rows of the normalized tenant that a relation row with
ancestor_id = parent joins at depth > 0 and (when maxDepth > 0) at
depth <= maxDepth, in ascending order of depth.  When maxDepth <= 0 the code
substitutes absMaxDepth, so the result is depth-unbounded for every state
whose depths stay at or below absMaxDepth (hypothesis hd; every realistic
state satisfies it, the bound being 2^31 - 1). -/
theorem c7_descendantids_query (db : DB) (parent : Nat) (maxDepth : Int)
    (tenant : String)
    (hd : ∀ r ∈ db.rels, r.depth ≤ absMaxDepth) :
    ∃ pairs : List (Nat × Int),
      Tree.DescendantIds db parent maxDepth tenant = .ok (pairs.map Prod.fst)
      ∧ pairs.Sorted depthLe
      ∧ ∀ x d, (x, d) ∈ pairs ↔
          ((∃ r ∈ db.rels, r.ancestorId = parent ∧ r.descendantId = x ∧
              r.depth = d) ∧
           (∃ n ∈ db.nodes, n.nodeId = x ∧ n.tenant = defaultTenant tenant) ∧
           0 < d ∧ (0 < maxDepth → d ≤ maxDepth)) := by
  refine ⟨(descendantRows db parent
      (if maxDepth ≤ 0 then absMaxDepth else maxDepth)
      (defaultTenant tenant)).insertionSort depthLe, rfl,
      List.sorted_insertionSort depthLe _, ?_⟩
  intro x d
  rw [(List.perm_insertionSort depthLe _).mem_iff, mem_descendantRows]
  constructor
  · rintro ⟨r, hr, ha, h0, hm, hdd, n, hn, hnd, hnt, hnx⟩
    refine ⟨⟨r, hr, ha, hnd.symm.trans hnx, hdd⟩, ⟨n, hn, hnx, hnt⟩,
            hdd ▸ h0, ?_⟩
    intro hpos
    rw [if_neg (not_le.mpr hpos)] at hm
    exact hdd ▸ hm
  · rintro ⟨⟨r, hr, ha, hdx, hdd⟩, ⟨n, hn, hnx, hnt⟩, h0, hb⟩
    refine ⟨r, hr, ha, hdd ▸ h0, ?_, hdd, n, hn, hnx.trans hdx.symm, hnt, hnx⟩
    by_cases hmd : maxDepth ≤ 0
    · rw [if_pos hmd]
      exact hd r hr
    · rw [if_neg hmd]
      exact hdd ▸ hb (not_le.mp hmd)

end ClosureTree

namespace ClosureTree

/-- C4.  A successful Add(item, parentID, tenant) appends exactly one node
row (with the store-assigned id and normalized tenant), its reflexive
relation at depth 0, and then either the single root marker
(0, newId, tenant, 1) when parentID = 0, or one copy of every relation row
whose descendant_id = parentID with the descendant replaced by the new id
and the depth incremented; consequently DescendantIds of parentID and of
every ancestor of parentID (unbounded depth) contains the new id.  The
hypotheses hold in every well-formed state: every node has its reflexive
relation, depths of the parent's ancestor rows stay below absMaxDepth, and
no relation row has the virtual root as descendant. -/
theorem c4_add_effect (db : DB) (pay pid : Nat) (tenant : String) (db' : DB)
    (hrefl : ∀ n ∈ db.nodes, Rel.mk n.nodeId n.nodeId n.tenant 0 ∈ db.rels)
    (hbound : ∀ r ∈ db.rels, r.descendantId = pid → r.depth < absMaxDepth)
    (hdesc0 : ∀ r ∈ db.rels, r.descendantId ≠ 0)
    (hok : Tree.Add db pay pid tenant = .ok db') :
    db'.nodes = db.nodes ++ [⟨db.nextId, defaultTenant tenant, pay⟩]
    ∧ db'.nextId = db.nextId + 1
    ∧ db'.rels = db.rels ++ ⟨db.nextId, db.nextId, defaultTenant tenant, 0⟩ ::
        (if pid == 0 then [⟨0, db.nextId, defaultTenant tenant, 1⟩]
         else (db.rels.filter fun r => r.descendantId == pid).map
                fun r => ⟨r.ancestorId, db.nextId, defaultTenant tenant,
                          r.depth + 1⟩)
    ∧ db.nextId ∈ okIds (Tree.DescendantIds db' pid 0 tenant)
    ∧ (∀ a, (∃ r ∈ db.rels, r.ancestorId = a ∧ r.descendantId = pid ∧
         0 < r.depth) →
        db.nextId ∈ okIds (Tree.DescendantIds db' a 0 tenant)) := by
  by_cases hg : (pid != 0 && !(db.nodes.any fun n =>
      n.nodeId == pid && n.tenant == defaultTenant tenant)) = true
  · simp only [Tree.Add, hg, if_true] at hok
    exact Except.noConfusion hok
  · have hgf : (pid != 0 && !(db.nodes.any fun n =>
        n.nodeId == pid && n.tenant == defaultTenant tenant)) = false := by
      rwa [Bool.not_eq_true] at hg
    simp only [Tree.Add, hgf, Bool.false_eq_true, if_false,
      Except.ok.injEq] at hok
    subst hok
    have hnode : (⟨db.nextId, defaultTenant tenant, pay⟩ : NodeRow) ∈
        db.nodes ++ [⟨db.nextId, defaultTenant tenant, pay⟩] :=
      List.mem_append_right _ (List.mem_singleton.mpr rfl)
    have key : ∀ (a : Nat) (d : Int) (rr : Rel),
        rr = ⟨a, db.nextId, defaultTenant tenant, d⟩ →
        rr ∈ db.rels ++ ⟨db.nextId, db.nextId, defaultTenant tenant, 0⟩ ::
          (if pid == 0 then [⟨0, db.nextId, defaultTenant tenant, 1⟩]
           else (db.rels.filter fun r => r.descendantId == pid).map
                  fun r => ⟨r.ancestorId, db.nextId, defaultTenant tenant,
                            r.depth + 1⟩) →
        0 < d → d ≤ absMaxDepth →
        db.nextId ∈ okIds (Tree.DescendantIds
          ⟨db.nodes ++ [⟨db.nextId, defaultTenant tenant, pay⟩],
           db.rels ++ ⟨db.nextId, db.nextId, defaultTenant tenant, 0⟩ ::
             (if pid == 0 then [⟨0, db.nextId, defaultTenant tenant, 1⟩]
              else (db.rels.filter fun r => r.descendantId == pid).map
                     fun r => ⟨r.ancestorId, db.nextId, defaultTenant tenant,
                               r.depth + 1⟩),
           db.nextId + 1⟩ a 0 tenant) := by
      intro a d rr hre hrm h0 hb
      rw [mem_okIds_descendantIds]
      refine ⟨d, mem_descendantRows.mpr ⟨rr, hrm, ?_, ?_, ?_, ?_, ?_⟩⟩
      · rw [hre]
      · rw [hre]; exact h0
      · rw [if_pos (le_refl (0 : Int)), hre]; exact hb
      · rw [hre]
      · exact ⟨⟨db.nextId, defaultTenant tenant, pay⟩, hnode, by rw [hre],
          rfl, rfl⟩
    refine ⟨rfl, rfl, rfl, ?_, ?_⟩
    · by_cases hpz : pid = 0
      · subst hpz
        refine key 0 1 ⟨0, db.nextId, defaultTenant tenant, 1⟩ rfl ?_
          Int.one_pos (by decide)
        refine List.mem_append_right _ (List.mem_cons_of_mem _ ?_)
        simp
      · have hpb : (pid == 0) = false := beq_eq_false_iff_ne.mpr hpz
        have hpar : ∃ n ∈ db.nodes, n.nodeId = pid ∧
            n.tenant = defaultTenant tenant := by
          have := hgf
          rw [Bool.and_eq_false_iff] at this
          rcases this with h1 | h2
          · exact absurd (bne_iff_ne.mpr hpz) (by rw [h1]; exact fun h => Bool.noConfusion h)
          · rw [Bool.not_eq_false', List.any_eq_true] at h2
            obtain ⟨n, hn, hcond⟩ := h2
            rw [Bool.and_eq_true, beq_iff_eq, beq_iff_eq] at hcond
            exact ⟨n, hn, hcond.1, hcond.2⟩
        obtain ⟨m, hm, hmid, hmt⟩ := hpar
        have hreflm := hrefl m hm
        rw [hmid, hmt] at hreflm
        refine key pid 1 ⟨pid, db.nextId, defaultTenant tenant, 1⟩ rfl ?_
          Int.one_pos (by decide)
        refine List.mem_append_right _ (List.mem_cons_of_mem _ ?_)
        rw [hpb, if_neg (Bool.false_ne_true)]
        refine List.mem_map.mpr ⟨⟨pid, pid, defaultTenant tenant, 0⟩, ?_, rfl⟩
        exact List.mem_filter.mpr ⟨hreflm, beq_iff_eq.mpr rfl⟩
    · rintro a ⟨r0, hr0, ha0, hd0, hp0⟩
      have hpz : pid ≠ 0 := fun h => hdesc0 r0 hr0 (h ▸ hd0)
      have hpb : (pid == 0) = false := beq_eq_false_iff_ne.mpr hpz
      refine key a (r0.depth + 1)
        ⟨a, db.nextId, defaultTenant tenant, r0.depth + 1⟩ rfl ?_
        (by positivity) ?_
      · refine List.mem_append_right _ (List.mem_cons_of_mem _ ?_)
        rw [hpb, if_neg (Bool.false_ne_true)]
        refine List.mem_map.mpr ⟨r0, ?_, by rw [ha0]⟩
        exact List.mem_filter.mpr ⟨hr0, beq_iff_eq.mpr hd0⟩
      · have := hbound r0 hr0 hd0
        omega

end ClosureTree

namespace ClosureTree

/-- Well-formedness of a database state: distinct nonzero node ids, nonempty
tenants, a reflexive relation for every node, every relation endpoint backed
by a node of the same tenant (the ancestor may also be the virtual root 0),
nonnegative depths, depth 0 exactly on self links, and closure under
composition of relations.  All conditions are decidable and hold in
well-formed states of the engine. -/
def Inv (db : DB) : Prop :=
  db.nodes.Pairwise (fun a b => a.nodeId ≠ b.nodeId)
  ∧ (∀ n ∈ db.nodes, n.nodeId ≠ 0)
  ∧ (∀ n ∈ db.nodes, n.tenant ≠ "")
  ∧ (∀ n ∈ db.nodes, Rel.mk n.nodeId n.nodeId n.tenant 0 ∈ db.rels)
  ∧ (∀ r ∈ db.rels, ∃ n ∈ db.nodes,
       n.nodeId = r.descendantId ∧ n.tenant = r.tenant)
  ∧ (∀ r ∈ db.rels, r.ancestorId = 0 ∨ ∃ n ∈ db.nodes,
       n.nodeId = r.ancestorId ∧ n.tenant = r.tenant)
  ∧ (∀ r ∈ db.rels, 0 ≤ r.depth)
  ∧ (∀ r ∈ db.rels, r.depth = 0 ↔ r.ancestorId = r.descendantId)
  ∧ (∀ r ∈ db.rels, ∀ s ∈ db.rels, r.descendantId = s.ancestorId →
       ∃ u ∈ db.rels, u.ancestorId = r.ancestorId ∧
         u.descendantId = s.descendantId ∧ u.tenant = s.tenant ∧
         u.depth = r.depth + s.depth)

instance (db : DB) : Decidable (Inv db) := by
  unfold Inv
  infer_instance

/-- Root 1 with child 2 under tenant t, a small well-formed state used by
the witnesses. -/
def dbTwo : DB := run [.add 10 0 "t", .add 20 1 "t"]

end ClosureTree

namespace ClosureTree

lemma isChildOf_iff {db : DB} {n p : Nat} {t : String} :
    Tree.IsChildOf db n p t = true ↔
      ∃ r ∈ db.rels, r.ancestorId = p ∧ r.descendantId = n ∧ r.depth = 1 ∧
        r.tenant = t := by
  simp [Tree.IsChildOf, List.any_eq_true, Bool.and_eq_true, beq_iff_eq,
    and_assoc]

lemma isDescendant_iff {db : DB} {n p : Nat} {t : String} :
    Tree.IsDescendant db n p t = true ↔
      ∃ r ∈ db.rels, r.ancestorId = n ∧ r.descendantId = p ∧ r.tenant = t := by
  simp [Tree.IsDescendant, List.any_eq_true, Bool.and_eq_true, beq_iff_eq,
    and_assoc]

/-- C3 amended.  For a well-formed state and a nonzero nodeId: when nodeId
resolves under the normalized tenant, Move returns InvalidMove exactly when
newParentID already is nodeId's parent (a depth-1 relation from newParentID
to nodeId exists), newParentID equals nodeId, or newParentID is a proper
descendant of nodeId (a positive-depth relation from nodeId to newParentID
exists); outside those cases it returns NodeNotFound exactly when
newParentID is nonzero and does not resolve under the tenant (the path
insert affects zero rows).  When nodeId itself does not resolve (including
cross-tenant attempts) Move returns NodeNotFound.  On every error the
transaction is rolled back, so the state is unchanged and no relation row is
removed.  (The original claim fails at nodeId = newParentID = 0, see the
counterexample.) -/
theorem c3_move_error_taxonomy (db : DB) (n p : Nat) (tenant : String)
    (hInv : Inv db) (hn : n ≠ 0) :
    ((∃ m ∈ db.nodes, m.nodeId = n ∧ m.tenant = defaultTenant tenant) →
      ((Tree.Move db n p tenant = .error .invalidMove ↔
          (∃ r ∈ db.rels, r.ancestorId = p ∧ r.descendantId = n ∧
             r.depth = 1 ∧ r.tenant = defaultTenant tenant)
          ∨ p = n
          ∨ (∃ r ∈ db.rels, r.ancestorId = n ∧ r.descendantId = p ∧
               0 < r.depth ∧ r.tenant = defaultTenant tenant))
       ∧ (¬((∃ r ∈ db.rels, r.ancestorId = p ∧ r.descendantId = n ∧
               r.depth = 1 ∧ r.tenant = defaultTenant tenant)
            ∨ p = n
            ∨ (∃ r ∈ db.rels, r.ancestorId = n ∧ r.descendantId = p ∧
                 0 < r.depth ∧ r.tenant = defaultTenant tenant)) →
           (Tree.Move db n p tenant = .error .nodeNotFound ↔
             p ≠ 0 ∧ ¬ ∃ m ∈ db.nodes, m.nodeId = p ∧
               m.tenant = defaultTenant tenant))))
    ∧ ((¬ ∃ m ∈ db.nodes, m.nodeId = n ∧ m.tenant = defaultTenant tenant) →
        Tree.Move db n p tenant = .error .nodeNotFound)
    ∧ (∀ e, Tree.Move db n p tenant = .error e →
        applyOp db (.move n p tenant) = db) := by
  obtain ⟨huniq, hid0, hten, hrefl, hdescn, hancn, hdge, hd0iff, htrans⟩ :=
    hInv
  refine ⟨?_, ?_, ?_⟩
  · -- nodeId resolvable
    rintro ⟨m0, hm0, hm0id, hm0t⟩
    have hreflrow : (⟨n, n, defaultTenant tenant, 0⟩ : Rel) ∈ db.rels := by
      have := hrefl m0 hm0
      rwa [hm0id, hm0t] at this
    have hcmem : (⟨n, n, defaultTenant tenant, 0⟩ : Rel) ∈
        (db.rels.filter fun c =>
          c.ancestorId == n && c.tenant == defaultTenant tenant) :=
      List.mem_filter.mpr ⟨hreflrow, by simp⟩
    have hcset_ne : (db.rels.filter fun c =>
        c.ancestorId == n && c.tenant == defaultTenant tenant) ≠ [] :=
      List.ne_nil_of_mem hcmem
    constructor
    · -- the InvalidMove characterization
      constructor
      · intro hIM
        by_cases hc : Tree.IsChildOf db n p (defaultTenant tenant) = true
        · exact Or.inl (isChildOf_iff.mp hc)
        · have hcf : Tree.IsChildOf db n p (defaultTenant tenant) = false :=
            Bool.eq_false_iff.mpr hc
          by_cases hd2 : (p != 0 &&
              Tree.IsDescendant db n p (defaultTenant tenant)) = true
          · rw [Bool.and_eq_true] at hd2
            obtain ⟨_, hdt⟩ := hd2
            obtain ⟨r, hr, hra, hrd, hrt⟩ := isDescendant_iff.mp hdt
            by_cases hz : r.depth = 0
            · have heq := (hd0iff r hr).mp hz
              refine Or.inr (Or.inl ?_)
              rw [← hrd, ← heq, hra]
            · have hpos : 0 < r.depth :=
                lt_of_le_of_ne (hdge r hr) (Ne.symm hz)
              exact Or.inr (Or.inr ⟨r, hr, hra, hrd, hpos, hrt⟩)
          · have hd2f : (p != 0 &&
                Tree.IsDescendant db n p (defaultTenant tenant)) = false :=
              Bool.eq_false_iff.mpr hd2
            by_cases hie : (moveInsertedRows db n p
                (defaultTenant tenant)).isEmpty = true
            · simp only [Tree.Move, hcf, hd2f, Bool.false_eq_true, if_false,
                hie, if_true] at hIM
              exact CtError.noConfusion (Except.error.inj hIM)
            · have hief : (moveInsertedRows db n p
                  (defaultTenant tenant)).isEmpty = false :=
                Bool.eq_false_iff.mpr hie
              simp only [Tree.Move, hcf, hd2f, Bool.false_eq_true, if_false,
                hief] at hIM
              exact Except.noConfusion hIM
      · intro hconds
        rcases hconds with hcond1 | hpn | hcond3
        · have hct : Tree.IsChildOf db n p (defaultTenant tenant) = true :=
            isChildOf_iff.mpr hcond1
          simp only [Tree.Move, hct, if_true]
        · by_cases hc : Tree.IsChildOf db n p (defaultTenant tenant) = true
          · simp only [Tree.Move, hc, if_true]
          · have hcf : Tree.IsChildOf db n p (defaultTenant tenant) = false :=
              Bool.eq_false_iff.mpr hc
            have hdt : Tree.IsDescendant db n p (defaultTenant tenant) =
                true :=
              isDescendant_iff.mpr
                ⟨⟨n, n, defaultTenant tenant, 0⟩, hreflrow, rfl, hpn.symm,
                 rfl⟩
            have hpnz : (p != 0) = true := by
              rw [bne_iff_ne]
              rw [hpn]
              exact hn
            simp only [Tree.Move, hcf, Bool.false_eq_true, if_false, hpnz,
              hdt, Bool.and_self, if_true]
        · obtain ⟨r, hr, hra, hrd, hpos, hrt⟩ := hcond3
          by_cases hc : Tree.IsChildOf db n p (defaultTenant tenant) = true
          · simp only [Tree.Move, hc, if_true]
          · have hcf : Tree.IsChildOf db n p (defaultTenant tenant) = false :=
              Bool.eq_false_iff.mpr hc
            have hdt : Tree.IsDescendant db n p (defaultTenant tenant) =
                true := isDescendant_iff.mpr ⟨r, hr, hra, hrd, hrt⟩
            have hpne : p ≠ 0 := by
              obtain ⟨m, hm, hm1, hm2⟩ := hdescn r hr
              rw [hrd] at hm1
              intro hp0
              exact hid0 m hm (by rw [hm1, hp0])
            have hpnz : (p != 0) = true := bne_iff_ne.mpr hpne
            simp only [Tree.Move, hcf, Bool.false_eq_true, if_false, hpnz,
              hdt, Bool.and_self, if_true]
    · -- the NodeNotFound characterization
      intro hnconds
      have hcf : Tree.IsChildOf db n p (defaultTenant tenant) = false := by
        rw [Bool.eq_false_iff]
        intro hc
        exact hnconds (Or.inl (isChildOf_iff.mp hc))
      have hd2f : (p != 0 &&
          Tree.IsDescendant db n p (defaultTenant tenant)) = false := by
        rw [Bool.eq_false_iff]
        intro hc
        rw [Bool.and_eq_true] at hc
        obtain ⟨_, hdt⟩ := hc
        obtain ⟨r, hr, hra, hrd, hrt⟩ := isDescendant_iff.mp hdt
        by_cases hz : r.depth = 0
        · have heq := (hd0iff r hr).mp hz
          refine hnconds (Or.inr (Or.inl ?_))
          rw [← hrd, ← heq, hra]
        · have hpos : 0 < r.depth :=
            lt_of_le_of_ne (hdge r hr) (Ne.symm hz)
          exact hnconds (Or.inr (Or.inr ⟨r, hr, hra, hrd, hpos, hrt⟩))
      constructor
      · intro hNNF
        by_cases hie : (moveInsertedRows db n p
            (defaultTenant tenant)).isEmpty = true
        · rw [List.isEmpty_iff] at hie
          have hpne : p ≠ 0 := by
            intro hp0
            subst hp0
            have hmap : moveInsertedRows db n 0 (defaultTenant tenant) =
                (db.rels.filter fun c =>
                  c.ancestorId == n &&
                  c.tenant == defaultTenant tenant).map
                  (fun c => ⟨0, c.descendantId, c.tenant, c.depth + 1⟩) := by
              unfold moveInsertedRows
              rfl
            rw [hmap, List.map_eq_nil_iff] at hie
            exact hcset_ne hie
          refine ⟨hpne, ?_⟩
          rintro ⟨m, hm, hm1, hm2⟩
          have hreflp : (⟨p, p, defaultTenant tenant, 0⟩ : Rel) ∈ db.rels := by
            have := hrefl m hm
            rwa [hm1, hm2] at this
          have hins_ne : moveInsertedRows db n p (defaultTenant tenant) ≠
              [] := by
            unfold moveInsertedRows
            rw [if_neg (fun hpp : (p == 0) = true =>
              hpne (beq_iff_eq.mp hpp))]
            intro hnil
            rw [List.flatMap_eq_nil_iff] at hnil
            have hpmem : (⟨p, p, defaultTenant tenant, 0⟩ : Rel) ∈
                (db.rels.filter fun pp =>
                  pp.descendantId == p &&
                  pp.tenant == defaultTenant tenant) :=
              List.mem_filter.mpr ⟨hreflp, by simp⟩
            have := hnil _ hpmem
            rw [List.map_eq_nil_iff] at this
            exact hcset_ne this
          exact hins_ne hie
        · have hief : (moveInsertedRows db n p
              (defaultTenant tenant)).isEmpty = false :=
            Bool.eq_false_iff.mpr hie
          simp only [Tree.Move, hcf, hd2f, Bool.false_eq_true, if_false,
            hief] at hNNF
          exact Except.noConfusion hNNF
      · rintro ⟨hpne, hpnores⟩
        have hpset : (db.rels.filter fun pp =>
            pp.descendantId == p && pp.tenant == defaultTenant tenant) =
            [] := by
          rw [List.eq_nil_iff_forall_not_mem]
          intro r hr
          rw [List.mem_filter, Bool.and_eq_true, beq_iff_eq, beq_iff_eq]
            at hr
          obtain ⟨m, hm, hm1, hm2⟩ := hdescn r hr.1
          exact hpnores ⟨m, hm, by rw [hm1, hr.2.1], by rw [hm2, hr.2.2]⟩
        have hins : moveInsertedRows db n p (defaultTenant tenant) = [] := by
          unfold moveInsertedRows
          rw [if_neg (fun hpp : (p == 0) = true => hpne (beq_iff_eq.mp hpp))]
          rw [hpset]
          rfl
        simp only [Tree.Move, hcf, hd2f, Bool.false_eq_true, if_false, hins,
          List.isEmpty_nil, if_true]
  · -- nodeId not resolvable
    intro hnores
    have hcf : Tree.IsChildOf db n p (defaultTenant tenant) = false := by
      rw [Bool.eq_false_iff]
      intro hc
      obtain ⟨r, hr, _, hrd, _, hrt⟩ := isChildOf_iff.mp hc
      obtain ⟨m, hm, hm1, hm2⟩ := hdescn r hr
      exact hnores ⟨m, hm, by rw [hm1, hrd], by rw [hm2, hrt]⟩
    have hcset : (db.rels.filter fun c =>
        c.ancestorId == n && c.tenant == defaultTenant tenant) = [] := by
      rw [List.eq_nil_iff_forall_not_mem]
      intro r hr
      rw [List.mem_filter, Bool.and_eq_true, beq_iff_eq, beq_iff_eq] at hr
      rcases hancn r hr.1 with h0 | ⟨m, hm, hm1, hm2⟩
      · exact hn (by rw [← hr.2.1, h0])
      · exact hnores ⟨m, hm, by rw [hm1, hr.2.1], by rw [hm2, hr.2.2]⟩
    have hdf : (p != 0 &&
        Tree.IsDescendant db n p (defaultTenant tenant)) = false := by
      rw [Bool.and_eq_false_iff]
      right
      rw [Bool.eq_false_iff]
      intro hc
      obtain ⟨r, hr, hra, _, hrt⟩ := isDescendant_iff.mp hc
      rcases hancn r hr with h0 | ⟨m, hm, hm1, hm2⟩
      · exact hn (by rw [← hra, h0])
      · exact hnores ⟨m, hm, by rw [hm1, hra], by rw [hm2, hrt]⟩
    have hins : moveInsertedRows db n p (defaultTenant tenant) = [] := by
      unfold moveInsertedRows
      by_cases hp0 : (p == 0) = true
      · rw [if_pos hp0, hcset]
        rfl
      · rw [if_neg hp0]
        rw [List.flatMap_eq_nil_iff]
        intro x _
        rw [hcset]
        rfl
    simp only [Tree.Move, hcf, hdf, Bool.false_eq_true, if_false, hins,
      List.isEmpty_nil, if_true]
  · -- errors roll back
    intro e he
    simp only [applyOp, he]

end ClosureTree

namespace ClosureTree

/-- C5.  In a well-formed state, after a successful DeleteRecurse(n, t) the
node n and every former descendant (every d with a relation (n, d) in the
old state) are gone — GetNode fails NodeNotFound for each of them — and no
surviving relation row references any of them as descendant or as ancestor.
When no node row qualifies for deletion, DeleteRecurse returns NodeNotFound
and the state (relation rows included) is unchanged. -/
theorem c5_deleterecurse_completeness (db : DB) (nodeId : Nat)
    (tenant : String) (hInv : Inv db) :
    (∀ db', Tree.DeleteRecurse db nodeId tenant = .ok db' →
       Tree.GetNode db' nodeId tenant = .error .nodeNotFound
       ∧ (∀ d, (∃ r ∈ db.rels, r.ancestorId = nodeId ∧ r.descendantId = d) →
            Tree.GetNode db' d tenant = .error .nodeNotFound)
       ∧ (∀ r ∈ db'.rels,
            (¬ ∃ s ∈ db.rels, s.ancestorId = nodeId ∧
               s.descendantId = r.descendantId)
            ∧ ¬ ∃ s ∈ db.rels, s.ancestorId = nodeId ∧
                s.descendantId = r.ancestorId))
    ∧ ((¬ ∃ m ∈ db.nodes, m.tenant = tenant ∧
         ∃ r ∈ db.rels, r.ancestorId = nodeId ∧ r.descendantId = m.nodeId) →
        Tree.DeleteRecurse db nodeId tenant = .error .nodeNotFound
        ∧ applyOp db (.del nodeId tenant) = db) := by
  obtain ⟨huniq, hid0, hten, hrefl, hdescn, hancn, hdge, hd0iff, htrans⟩ :=
    hInv
  constructor
  · intro db' hok
    by_cases hany : (db.nodes.any fun nn => nn.tenant == tenant &&
        db.rels.any fun r =>
          r.ancestorId == nodeId && r.descendantId == nn.nodeId) = true
    · simp only [Tree.DeleteRecurse, hany, if_true, Except.ok.injEq] at hok
      subst hok
      -- the raw tenant is some node's tenant, hence nonempty
      have htne : tenant ≠ "" := by
        rw [List.any_eq_true] at hany
        obtain ⟨m, hm, hmc⟩ := hany
        rw [Bool.and_eq_true, beq_iff_eq] at hmc
        intro hte
        exact hten m hm (by rw [hmc.1, hte])
      have ht' : defaultTenant tenant = tenant := by
        unfold defaultTenant
        rw [if_neg htne]
      have hgone : ∀ d, (∃ r ∈ db.rels, r.ancestorId = nodeId ∧
          r.descendantId = d) →
          Tree.GetNode
            ⟨db.nodes.filter fun nn => !(nn.tenant == tenant &&
               db.rels.any fun r =>
                 r.ancestorId == nodeId && r.descendantId == nn.nodeId),
             db.rels.filter fun r => !(db.rels.any fun s =>
               s.ancestorId == nodeId && s.descendantId == r.descendantId),
             db.nextId⟩ d tenant = .error .nodeNotFound := by
        rintro d ⟨s, hs, hs1, hs2⟩
        have hfind : (db.nodes.filter fun nn => !(nn.tenant == tenant &&
            db.rels.any fun r =>
              r.ancestorId == nodeId &&
              r.descendantId == nn.nodeId)).find?
            (fun nn => nn.nodeId == d && nn.tenant == defaultTenant tenant) =
            none := by
          rw [List.find?_eq_none]
          intro nn hnn
          rw [List.mem_filter] at hnn
          rw [Bool.not_eq_true', Bool.and_eq_false_iff] at hnn
          intro hmatch
          rw [Bool.and_eq_true, beq_iff_eq, beq_iff_eq, ht'] at hmatch
          rcases hnn.2 with h1 | h2
          · rw [beq_eq_false_iff_ne] at h1
            exact h1 hmatch.2
          · rw [List.any_eq_false] at h2
            refine h2 s hs ?_
            rw [Bool.and_eq_true, beq_iff_eq, beq_iff_eq]
            exact ⟨hs1, by rw [hs2, hmatch.1]⟩
        simp only [Tree.GetNode, hfind]
      refine ⟨?_, hgone, ?_⟩
      · by_cases hex : ∃ r ∈ db.rels, r.ancestorId = nodeId ∧
            r.descendantId = nodeId
        · exact hgone nodeId hex
        · have hfind : (db.nodes.filter fun nn => !(nn.tenant == tenant &&
              db.rels.any fun r =>
                r.ancestorId == nodeId &&
                r.descendantId == nn.nodeId)).find?
              (fun nn => nn.nodeId == nodeId &&
                nn.tenant == defaultTenant tenant) = none := by
            rw [List.find?_eq_none]
            intro nn hnn
            rw [List.mem_filter] at hnn
            intro hmatch
            rw [Bool.and_eq_true, beq_iff_eq, beq_iff_eq, ht'] at hmatch
            have := hrefl nn hnn.1
            rw [hmatch.1, hmatch.2] at this
            exact hex ⟨⟨nodeId, nodeId, tenant, 0⟩, this, rfl, rfl⟩
          simp only [Tree.GetNode, hfind]
      · intro r hr
        rw [List.mem_filter, Bool.not_eq_true', List.any_eq_false] at hr
        have hnodesc : ¬ ∃ s ∈ db.rels, s.ancestorId = nodeId ∧
            s.descendantId = r.descendantId := by
          rintro ⟨s, hs, hs1, hs2⟩
          refine hr.2 s hs ?_
          rw [Bool.and_eq_true, beq_iff_eq, beq_iff_eq]
          exact ⟨hs1, hs2⟩
        refine ⟨hnodesc, ?_⟩
        rintro ⟨s, hs, hs1, hs2⟩
        obtain ⟨u, hu, hu1, hu2, _, _⟩ :=
          htrans s hs r hr.1 (by rw [hs2])
        exact hnodesc ⟨u, hu, by rw [hu1, hs1], hu2⟩
    · have hanyf : (db.nodes.any fun nn => nn.tenant == tenant &&
          db.rels.any fun r =>
            r.ancestorId == nodeId && r.descendantId == nn.nodeId) = false :=
        Bool.eq_false_iff.mpr hany
      simp only [Tree.DeleteRecurse, hanyf, Bool.false_eq_true, if_false]
        at hok
      exact Except.noConfusion hok
  · intro hno
    have hanyf : (db.nodes.any fun nn => nn.tenant == tenant &&
        db.rels.any fun r =>
          r.ancestorId == nodeId && r.descendantId == nn.nodeId) = false := by
      rw [List.any_eq_false]
      intro m hm
      intro hcon
      rw [Bool.and_eq_true, beq_iff_eq, List.any_eq_true] at hcon
      obtain ⟨hmt, r, hrm, hrc⟩ := hcon
      rw [Bool.and_eq_true, beq_iff_eq, beq_iff_eq] at hrc
      exact hno ⟨m, hm, hmt, r, hrm, hrc.1, hrc.2⟩
    have herr : Tree.DeleteRecurse db nodeId tenant =
        .error .nodeNotFound := by
      simp only [Tree.DeleteRecurse, hanyf, Bool.false_eq_true, if_false]
    exact ⟨herr, by simp only [applyOp, herr]⟩

end ClosureTree

namespace ClosureTree

/-- Witness for C7 at the concrete state dbTwo (root 1 with child 2). -/
theorem c7_descendantids_query_witness :
    ∃ pairs : List (Nat × Int),
      Tree.DescendantIds dbTwo 1 0 "t" = .ok (pairs.map Prod.fst)
      ∧ pairs.Sorted depthLe
      ∧ ∀ x d, (x, d) ∈ pairs ↔
          ((∃ r ∈ dbTwo.rels, r.ancestorId = 1 ∧ r.descendantId = x ∧
              r.depth = d) ∧
           (∃ n ∈ dbTwo.nodes, n.nodeId = x ∧
              n.tenant = defaultTenant "t") ∧
           0 < d ∧ ((0 : Int) < 0 → d ≤ 0)) :=
  c7_descendantids_query dbTwo 1 0 "t" (by decide)

/-- Witness for C8 at the concrete state dbTwo. -/
theorem c8_update_only_payload_witness :
    (Tree.Update dbTwo 2 99 "t" = .error .nodeNotFound ↔
       ¬ ∃ n ∈ dbTwo.nodes, n.nodeId = 2 ∧ n.tenant = defaultTenant "t")
    ∧ (∀ db', Tree.Update dbTwo 2 99 "t" = .ok db' →
        db'.rels = dbTwo.rels ∧ db'.nextId = dbTwo.nextId ∧
        db'.nodes = dbTwo.nodes.map (fun n =>
          if n.nodeId == 2 && n.tenant == defaultTenant "t" then
            { n with payload := 99 } else n) ∧
        (dbTwo.nodes.filter (fun n =>
           n.nodeId == 2 && n.tenant == defaultTenant "t")).length ≤ 1) :=
  c8_update_only_payload dbTwo 2 99 "t" (by decide)

/-- Witness for C10 at the concrete state dbTwo and the absent parent 77. -/
theorem c10_descendantids_empty_not_error_witness :
    Tree.DescendantIds dbTwo 77 0 "t" = .ok []
    ∧ ((¬ ∃ n ∈ dbTwo.nodes, n.nodeId = 77 ∧
          n.tenant = defaultTenant "t") →
        Tree.GetNode dbTwo 77 "t" = .error .nodeNotFound) :=
  c10_descendantids_empty_not_error dbTwo 77 0 "t" (by decide)

/-- Witness for C4: adding a payload under parent 2 in dbTwo. -/
theorem c4_add_effect_witness :
    (applyOp dbTwo (.add 7 2 "t")).nodes =
      dbTwo.nodes ++ [⟨dbTwo.nextId, defaultTenant "t", 7⟩]
    ∧ (applyOp dbTwo (.add 7 2 "t")).nextId = dbTwo.nextId + 1
    ∧ (applyOp dbTwo (.add 7 2 "t")).rels = dbTwo.rels ++
        ⟨dbTwo.nextId, dbTwo.nextId, defaultTenant "t", 0⟩ ::
        (if (2 : Nat) == 0 then [⟨0, dbTwo.nextId, defaultTenant "t", 1⟩]
         else (dbTwo.rels.filter fun r => r.descendantId == 2).map
                fun r => ⟨r.ancestorId, dbTwo.nextId, defaultTenant "t",
                          r.depth + 1⟩)
    ∧ dbTwo.nextId ∈ okIds
        (Tree.DescendantIds (applyOp dbTwo (.add 7 2 "t")) 2 0 "t")
    ∧ (∀ a, (∃ r ∈ dbTwo.rels, r.ancestorId = a ∧ r.descendantId = 2 ∧
         0 < r.depth) →
        dbTwo.nextId ∈ okIds
          (Tree.DescendantIds (applyOp dbTwo (.add 7 2 "t")) a 0 "t")) :=
  c4_add_effect dbTwo 7 2 "t" (applyOp dbTwo (.add 7 2 "t"))
    (by decide) (by decide) (by decide) (by decide)

/-- Witness for C3 at the concrete state dbTwo, moving node 2 to parent 1
(its current parent, so the guard characterization applies). -/
theorem c3_move_error_taxonomy_witness :
    ((∃ m ∈ dbTwo.nodes, m.nodeId = 2 ∧ m.tenant = defaultTenant "t") →
      ((Tree.Move dbTwo 2 1 "t" = .error .invalidMove ↔
          (∃ r ∈ dbTwo.rels, r.ancestorId = 1 ∧ r.descendantId = 2 ∧
             r.depth = 1 ∧ r.tenant = defaultTenant "t")
          ∨ 1 = 2
          ∨ (∃ r ∈ dbTwo.rels, r.ancestorId = 2 ∧ r.descendantId = 1 ∧
               0 < r.depth ∧ r.tenant = defaultTenant "t"))
       ∧ (¬((∃ r ∈ dbTwo.rels, r.ancestorId = 1 ∧ r.descendantId = 2 ∧
               r.depth = 1 ∧ r.tenant = defaultTenant "t")
            ∨ 1 = 2
            ∨ (∃ r ∈ dbTwo.rels, r.ancestorId = 2 ∧ r.descendantId = 1 ∧
                 0 < r.depth ∧ r.tenant = defaultTenant "t")) →
           (Tree.Move dbTwo 2 1 "t" = .error .nodeNotFound ↔
             (1 : Nat) ≠ 0 ∧ ¬ ∃ m ∈ dbTwo.nodes, m.nodeId = 1 ∧
               m.tenant = defaultTenant "t"))))
    ∧ ((¬ ∃ m ∈ dbTwo.nodes, m.nodeId = 2 ∧ m.tenant = defaultTenant "t") →
        Tree.Move dbTwo 2 1 "t" = .error .nodeNotFound)
    ∧ (∀ e, Tree.Move dbTwo 2 1 "t" = .error e →
        applyOp dbTwo (.move 2 1 "t") = dbTwo) :=
  c3_move_error_taxonomy dbTwo 2 1 "t" (by decide) (by decide)

/-- Witness for C5 at the concrete state dbTwo, deleting node 2. -/
theorem c5_deleterecurse_completeness_witness :
    (∀ db', Tree.DeleteRecurse dbTwo 2 "t" = .ok db' →
       Tree.GetNode db' 2 "t" = .error .nodeNotFound
       ∧ (∀ d, (∃ r ∈ dbTwo.rels, r.ancestorId = 2 ∧ r.descendantId = d) →
            Tree.GetNode db' d "t" = .error .nodeNotFound)
       ∧ (∀ r ∈ db'.rels,
            (¬ ∃ s ∈ dbTwo.rels, s.ancestorId = 2 ∧
               s.descendantId = r.descendantId)
            ∧ ¬ ∃ s ∈ dbTwo.rels, s.ancestorId = 2 ∧
                s.descendantId = r.ancestorId))
    ∧ ((¬ ∃ m ∈ dbTwo.nodes, m.tenant = "t" ∧
         ∃ r ∈ dbTwo.rels, r.ancestorId = 2 ∧ r.descendantId = m.nodeId) →
        Tree.DeleteRecurse dbTwo 2 "t" = .error .nodeNotFound
        ∧ applyOp dbTwo (.del 2 "t") = dbTwo) :=
  c5_deleterecurse_completeness dbTwo 2 "t" (by decide)

end ClosureTree
